import Mathlib

/-!
Shallow embedding of the storage abstraction (`src/storage.py`) and the
retention sweeper (`src/experiments/tts_pirate/routes.py`) of the
Pirate_Is_A_Way_Of_Life repository, together with proofs of the spec's
claims about them.

Modelling conventions:
* bytes are `List Nat`; timestamps (`os.path.getctime`, `obj.LastModified`)
  are `Int` seconds since the epoch;
* the local directory and the S3 bucket are association lists from
  name/key to stored data; a real directory or bucket has at most one
  entry per name, which theorems carry as a nodup-keys hypothesis;
* functions that consult the clock (`time.time()`, write timestamps)
  take the current time `now : Int` as an explicit argument;
* backend-level I/O faults that Python surfaces as exceptions caught at
  each operation boundary are modelled where the code itself branches on
  them (the `_initialized` flag of `S3Storage`); the fault-free provider
  semantics is modelled for the S3 client calls (e.g. `delete_object`
  succeeds whether or not the key exists).
-/

namespace PirateLab

/-- Raw file content, one `Nat` per byte. -/
abbrev Bytes := List Nat

/-- Data held for one file on the local backend: its content and its
`os.path.getctime` creation/change timestamp. -/
structure FileData where
  content : Bytes
  created : Int
  deriving DecidableEq

/-- A local directory state (`LocalStorage.base_dir`): filenames paired
with their data.  A real directory has at most one entry per name;
theorems that rely on this carry a `(fs.map Prod.fst).Nodup` hypothesis. -/
abbrev FS := List (String × FileData)

/-- First-match association-list lookup (the filesystem or bucket holds
at most one entry per key anyway). -/
def lookupKey {α : Type} : List (String × α) → String → Option α
  | [], _ => none
  | (k, v) :: rest, name => if k = name then some v else lookupKey rest name

/-- Remove every entry stored under `name` (`os.remove` / `delete_object`;
on a well-formed state there is at most one). -/
def eraseKey {α : Type} (l : List (String × α)) (name : String) : List (String × α) :=
  l.filter (fun p => p.1 ≠ name)

/-- Store `v` under `name`, overwriting any existing entry
(`open(path, 'wb')` / `put_object`). -/
def writeKey {α : Type} (l : List (String × α)) (name : String) (v : α) :
    List (String × α) :=
  eraseKey l name ++ [(name, v)]

/-- One row of a `list_files` result: the dict
`{'filename': ..., 'size': ..., 'created': ...}`. -/
structure FileRecord where
  filename : String
  size : Nat
  created : Int
  deriving DecidableEq

/-- Python `s.startswith(p)`, at the character level. -/
def strStartsWith (s p : String) : Bool :=
  p.data.isPrefixOf s.data

/-- Python `s.endswith(p)`, at the character level. -/
def strEndsWith (s p : String) : Bool :=
  p.data.isSuffixOf s.data

/-- `filename.endswith(('.mp3', '.wav'))`. -/
def audioExt (name : String) : Bool :=
  strEndsWith name ".mp3" || strEndsWith name ".wav"

/-- The guard `if exclude_prefix and filename.startswith(exclude_prefix)`
of both `list_files` implementations.  Python truthiness: `None` and the
empty string are falsy, so an empty exclusion string excludes nothing. -/
def excludedBy (ep : Option String) (name : String) : Bool :=
  match ep with
  | none => false
  | some p => !p.data.isEmpty && strStartsWith name p

/-- Insert a record into a list sorted by `created` descending, after all
earlier records with `created ≥ r.created` (stability). -/
def insertDesc (r : FileRecord) : List FileRecord → List FileRecord
  | [] => [r]
  | s :: rest => if s.created ≤ r.created then r :: s :: rest else s :: insertDesc r rest

/-- `files.sort(key=lambda x: x['created'], reverse=True)`: Python's sort
is stable; a stable insertion sort has the same observable result. -/
def sortByCreatedDesc : List FileRecord → List FileRecord
  | [] => []
  | r :: rest => insertDesc r (sortByCreatedDesc rest)

namespace LocalStorage

/-- `LocalStorage.save_file`: writes `content` under `filename`, creating
or truncating; on Linux this sets the file's ctime to the write time. -/
def save_file (fs : FS) (filename : String) (content : Bytes) (now : Int) : FS × Bool :=
  (writeKey fs filename ⟨content, now⟩, true)

/-- `LocalStorage.get_file`: full content if the path exists, else `None`. -/
def get_file (fs : FS) (filename : String) : Option Bytes :=
  (lookupKey fs filename).map FileData.content

/-- `LocalStorage.file_exists`. -/
def file_exists (fs : FS) (filename : String) : Bool :=
  (lookupKey fs filename).isSome

/-- `LocalStorage.delete_file`: `os.remove` if the path exists (returns
`True`), else returns `False`. -/
def delete_file (fs : FS) (filename : String) : FS × Bool :=
  if file_exists fs filename then (eraseKey fs filename, true) else (fs, false)

/-- `LocalStorage.rename_file`: `os.rename` if the old path exists
(returns `True`, and the rename updates the file's ctime), else returns
`False`. -/
def rename_file (fs : FS) (old_name new_name : String) (now : Int) : FS × Bool :=
  match lookupKey fs old_name with
  | some d => (writeKey (eraseKey fs old_name) new_name { d with created := now }, true)
  | none => (fs, false)

/-- `LocalStorage.list_files`: every directory entry that is not excluded
by `exclude_prefix` and carries an audio extension, as records of name,
`os.path.getsize` and `os.path.getctime`, sorted by `created` descending. -/
def list_files (fs : FS) (ep : Option String) : List FileRecord :=
  sortByCreatedDesc (fs.filterMap (fun p =>
    if excludedBy ep p.1 then none
    else if audioExt p.1 then some ⟨p.1, p.2.content.length, p.2.created⟩
    else none))

/-- `LocalStorage.get_file_url`: the API path when the file exists. -/
def get_file_url (fs : FS) (filename : String) : Option String :=
  if file_exists fs filename then some ("/api/play/" ++ filename) else none

/-- `LocalStorage.cleanup_temp_files`: remove every directory entry whose
name starts with `temp_` and whose ctime-age exceeds `max_age_seconds`.
The loop walks the directory listing and removes each matching entry;
decisions are per-entry, so the result is the filtered directory. -/
def cleanup_temp_files (fs : FS) (now : Int) (max_age_seconds : Int) : FS :=
  fs.filter (fun p =>
    !(strStartsWith p.1 "temp_" && decide (now - p.2.created > max_age_seconds)))

end LocalStorage

/-- Data held for one S3 object: its bytes and its `LastModified` time
(`obj.Size` in listings is the byte length of the content). -/
structure S3Obj where
  content : Bytes
  lastModified : Int
  deriving DecidableEq

/-- The object-store bucket contents: keys paired with objects. -/
abbrev Bucket := List (String × S3Obj)

/-- The fields `S3Storage.__init__` leaves on the instance.  `pre` is the
source's `self.prefix` key namespace (default `audio/`), renamed here
because that identifier is reserved in this development. -/
structure S3Cfg where
  bucket_name : String
  pre : String
  initialized : Bool
  deriving DecidableEq

namespace S3Storage

/-- `S3Storage.__init__`: a total function — both failure paths (missing
`boto3` import, client-construction error) are caught inside the
constructor and merely set `_initialized = False`; nothing escapes.
`clientOk` stands for: boto3 imported and `boto3.client` returned. -/
def init (bucket_name : String) (pre : String) (clientOk : Bool) : S3Cfg :=
  { bucket_name := bucket_name, pre := pre, initialized := clientOk }

/-- `S3Storage._get_key`. -/
def get_key (cfg : S3Cfg) (filename : String) : String :=
  cfg.pre ++ filename

/-- `S3Storage.save_file`: `put_object` stores the bytes under the key
and stamps `LastModified` with the upload time. -/
def save_file (cfg : S3Cfg) (b : Bucket) (filename : String) (content : Bytes)
    (now : Int) : Bucket × Bool :=
  if cfg.initialized then (writeKey b (get_key cfg filename) ⟨content, now⟩, true)
  else (b, false)

/-- `S3Storage.get_file`: `get_object` body, or `None` when the key is
absent (`NoSuchKey` is caught at the operation boundary). -/
def get_file (cfg : S3Cfg) (b : Bucket) (filename : String) : Option Bytes :=
  if cfg.initialized then (lookupKey b (get_key cfg filename)).map S3Obj.content
  else none

/-- `S3Storage.delete_file`: `delete_object` succeeds whether or not the
key exists (provider semantics), so the method returns `True` for absent
names as well. -/
def delete_file (cfg : S3Cfg) (b : Bucket) (filename : String) : Bucket × Bool :=
  if cfg.initialized then (eraseKey b (get_key cfg filename), true)
  else (b, false)

/-- `S3Storage.rename_file`: `copy_object` to the new key, then
`delete_object` on the old key.  When the old key is absent, or old and
new key coincide (the provider rejects a plain self-copy), `copy_object`
raises, the exception is caught and `False` is returned with the bucket
untouched.  The copy stamps the new object's `LastModified`. -/
def rename_file (cfg : S3Cfg) (b : Bucket) (old_name new_name : String)
    (now : Int) : Bucket × Bool :=
  if cfg.initialized then
    match lookupKey b (get_key cfg old_name) with
    | some o =>
        if get_key cfg old_name = get_key cfg new_name then (b, false)
        else
          (eraseKey (writeKey b (get_key cfg new_name) { o with lastModified := now })
            (get_key cfg old_name), true)
    | none => (b, false)
  else (b, false)

/-- `S3Storage.list_files`: paginate over keys under `self.prefix`,
derive each filename as `obj['Key'].replace(self.prefix, '')` (Python
`str.replace` removes every occurrence), then apply the same exclusion,
extension filter and descending `created` sort as the local variant. -/
def list_files (cfg : S3Cfg) (b : Bucket) (ep : Option String) : List FileRecord :=
  if cfg.initialized then
    sortByCreatedDesc (b.filterMap (fun p =>
      if strStartsWith p.1 cfg.pre then
        let filename := p.1.replace cfg.pre ""
        if excludedBy ep filename then none
        else if audioExt filename then
          some ⟨filename, p.2.content.length, p.2.lastModified⟩
        else none
      else none))
  else []

/-- `S3Storage.file_exists`: `head_object`, with the 404 fault caught and
turned into `False`. -/
def file_exists (cfg : S3Cfg) (b : Bucket) (filename : String) : Bool :=
  if cfg.initialized then (lookupKey b (get_key cfg filename)).isSome
  else false

/-- `S3Storage.get_file_url`: a presigned URL (one-hour expiry); the
client generates it locally whether or not the key exists.  The URL text
is opaque glue; only its presence or absence matters. -/
def get_file_url (cfg : S3Cfg) (filename : String) : Option String :=
  if cfg.initialized then
    some ("https://" ++ cfg.bucket_name ++ "/" ++ get_key cfg filename ++ "?presigned=3600")
  else none

/-- `S3Storage.cleanup_temp_files`: walk `list_files()` (audio files
only, on this backend) and delete each `temp_`-named file older than
`max_age_seconds`. -/
def cleanup_temp_files (cfg : S3Cfg) (b : Bucket) (now : Int)
    (max_age_seconds : Int) : Bucket :=
  if cfg.initialized then
    (list_files cfg b none).foldl
      (fun s r =>
        if strStartsWith r.filename "temp_" && decide (now - r.created > max_age_seconds) then
          (delete_file cfg s r.filename).1
        else s) b
  else b

end S3Storage

/-- The two interchangeable `StorageBackend` variants together with their
state: the local directory, or the S3 configuration plus bucket contents. -/
inductive Backend where
  | localDisk (fs : FS)
  | objectStore (cfg : S3Cfg) (b : Bucket)

namespace Backend

/-- Dispatch of `save_file` over the active backend. -/
def save_file : Backend → String → Bytes → Int → Backend × Bool
  | localDisk fs, n, c, now =>
      ((LocalStorage.save_file fs n c now).1 |> localDisk, (LocalStorage.save_file fs n c now).2)
  | objectStore cfg b, n, c, now =>
      (objectStore cfg (S3Storage.save_file cfg b n c now).1, (S3Storage.save_file cfg b n c now).2)

/-- Dispatch of `get_file`. -/
def get_file : Backend → String → Option Bytes
  | localDisk fs, n => LocalStorage.get_file fs n
  | objectStore cfg b, n => S3Storage.get_file cfg b n

/-- Dispatch of `file_exists`. -/
def file_exists : Backend → String → Bool
  | localDisk fs, n => LocalStorage.file_exists fs n
  | objectStore cfg b, n => S3Storage.file_exists cfg b n

/-- Dispatch of `delete_file`. -/
def delete_file : Backend → String → Backend × Bool
  | localDisk fs, n =>
      ((LocalStorage.delete_file fs n).1 |> localDisk, (LocalStorage.delete_file fs n).2)
  | objectStore cfg b, n =>
      (objectStore cfg (S3Storage.delete_file cfg b n).1, (S3Storage.delete_file cfg b n).2)

/-- Dispatch of `rename_file`. -/
def rename_file : Backend → String → String → Int → Backend × Bool
  | localDisk fs, o, n, now =>
      ((LocalStorage.rename_file fs o n now).1 |> localDisk, (LocalStorage.rename_file fs o n now).2)
  | objectStore cfg b, o, n, now =>
      (objectStore cfg (S3Storage.rename_file cfg b o n now).1, (S3Storage.rename_file cfg b o n now).2)

/-- Dispatch of `list_files`. -/
def list_files : Backend → Option String → List FileRecord
  | localDisk fs, ep => LocalStorage.list_files fs ep
  | objectStore cfg b, ep => S3Storage.list_files cfg b ep

/-- Dispatch of `cleanup_temp_files` (both classes define it, so the
sweeper's `hasattr` check passes on either backend). -/
def cleanup_temp_files : Backend → Int → Int → Backend
  | localDisk fs, now, age => localDisk (LocalStorage.cleanup_temp_files fs now age)
  | objectStore cfg b, now, age => objectStore cfg (S3Storage.cleanup_temp_files cfg b now age)

end Backend

/-!
The retention sweeper of `experiments/tts_pirate/routes.py`
(`cleanup_old_files`): an endless loop whose body lists all files with no
`exclude_prefix`, deletes those older than `FILE_MAX_AGE_SECONDS`
(default 3600), then invokes the backend's `cleanup_temp_files` with a
300-second threshold, all inside one `try/except Exception`; the loop
then sleeps 300 seconds and repeats.
-/

/-- Default of `FILE_MAX_AGE_SECONDS = int(os.environ.get('FILE_MAX_AGE_SECONDS', 3600))`. -/
def FILE_MAX_AGE_SECONDS_default : Int := 3600

/-- Phase 1 of one sweep cycle: `files = storage.list_files()` (no
`exclude_prefix`), then delete every listed file whose age
`now - created` exceeds `maxAge`. -/
def sweepLongPhase (st : Backend) (now maxAge : Int) : Backend :=
  (Backend.list_files st none).foldl
    (fun s r =>
      if now - r.created > maxAge then (Backend.delete_file s r.filename).1 else s)
    st

/-- Phase 2 of one sweep cycle: `storage.cleanup_temp_files(max_age_seconds=300)`
(guarded by a `hasattr` check that both backends satisfy). -/
def sweepCycle (st : Backend) (now maxAge : Int) : Backend :=
  Backend.cleanup_temp_files (sweepLongPhase st now maxAge) now 300

/-- The body of the `try:` block, with an exception oracle: `fault = some msg`
stands for an exception (e.g. full backend unavailability) raised during
the cycle, in which case no state change lands. -/
def sweepCycleExc (st : Backend) (now maxAge : Int) (fault : Option String) :
    Except String Backend :=
  match fault with
  | some msg => Except.error msg
  | none => Except.ok (sweepCycle st now maxAge)

/-- One iteration of the `while True:` loop: the `except Exception` arm
catches any error from the cycle and logs it, after which control falls
through to `time.sleep(300)` and the next iteration. -/
def sweepIteration (st : Backend) (now maxAge : Int) (fault : Option String) : Backend :=
  match sweepCycleExc st now maxAge fault with
  | Except.ok st' => st'
  | Except.error _ => st

/-- Run the sweeper loop through a finite schedule of iterations, each
with its wall-clock time and exception oracle. -/
def sweeperRun (maxAge : Int) : Backend → List (Int × Option String) → Backend
  | st, [] => st
  | st, (now, fault) :: rest => sweeperRun maxAge (sweepIteration st now maxAge fault) rest

/-!
The process bootstrap (`run.py:create_app`) and the module surface of
`experiments/tts_pirate/routes.py`, modelled to settle the claim about
the `start background retention` entry point.
-/

/-- Every module-level name bound in `experiments/tts_pirate/routes.py`
(imports, module constants, functions, the blueprint and the sweeper
thread object).  The sweeper thread is created and started when the
module is first imported (lines 75-76); no start function is defined. -/
def ttsRoutesNames : List String :=
  ["os", "Blueprint", "render_template", "request", "jsonify", "send_file", "Response",
   "load_dotenv", "edge_tts", "asyncio", "re", "uuid", "html", "io", "threading", "time",
   "datetime", "TTS_DIR", "tts_bp", "BASE_URL", "STORAGE_TYPE", "FILE_MAX_AGE_SECONDS",
   "get_storage_backend", "LocalStorage", "storage", "MAX_TEXT_LENGTH", "MAX_FILENAME_LENGTH",
   "cleanup_old_files", "cleanup_thread", "sanitize_text", "sanitize_filename",
   "validate_voice_id", "validate_numeric_param", "edge_voices_cache", "get_edge_voices",
   "text_to_speech_edge", "index", "api_get_voices", "api_speak", "api_play", "api_save",
   "api_download", "api_history", "api_delete"]

/-- Python `from module import a, b, ...`: succeeds only when the module
binds every requested name, otherwise raises `ImportError`. -/
def importNamesFrom (module : List String) (names : List String) : Except String Unit :=
  if names.all (fun s => module.contains s) then Except.ok ()
  else Except.error "ImportError"

/-- `run.py` line 53, executed inside `create_app()`:
`from experiments.tts_pirate.routes import tts_bp, start_cleanup_task`.
This statement runs before the `try/except RuntimeError` that wraps the
`start_cleanup_task()` call, so an `ImportError` here aborts `create_app`. -/
def create_app_tts_import : Except String Unit :=
  importNamesFrom ttsRoutesNames ["tts_bp", "start_cleanup_task"]

/-- The long-retention phase's per-record action on the local directory:
delete the record's file when its age exceeds the window (deleting an
already-gone file leaves the directory as is). -/
def localLongStep (now maxAge : Int) (s : FS) (r : FileRecord) : FS :=
  if now - r.created > maxAge then eraseKey s r.filename else s

/-- The set of names the long-retention phase deletes, as a predicate:
some listed record for this name is older than the window. -/
def killedBy (now maxAge : Int) (rs : List FileRecord) (name : String) : Bool :=
  rs.any (fun r => decide (now - r.created > maxAge) && r.filename == name)

/-- A record list sorted by `created` descending: every entry's `created`
is at least that of every later entry. -/
def SortedDesc (l : List FileRecord) : Prop :=
  l.Pairwise (fun a b => b.created ≤ a.created)

/-! ## Helper lemmas -/

theorem lookupKey_eq_none_of_not_mem_keys {α : Type} {l : List (String × α)} {k : String}
    (h : k ∉ l.map Prod.fst) : lookupKey l k = none := by
  induction l with
  | nil => rfl
  | cons p rest ih =>
      simp only [List.map_cons, List.mem_cons] at h
      push_neg at h
      simp only [lookupKey]
      rw [if_neg (fun hk => h.1 hk.symm), ih h.2]

theorem lookupKey_append {α : Type} (l₁ l₂ : List (String × α)) (k : String) :
    lookupKey (l₁ ++ l₂) k =
      match lookupKey l₁ k with
      | some v => some v
      | none => lookupKey l₂ k := by
  induction l₁ with
  | nil => rfl
  | cons p rest ih =>
      by_cases h : p.1 = k
      · simp [lookupKey, h]
      · simp [lookupKey, h, ih]

theorem lookupKey_eraseKey_self {α : Type} (l : List (String × α)) (k : String) :
    lookupKey (eraseKey l k) k = none := by
  induction l with
  | nil => rfl
  | cons p rest ih =>
      by_cases h : p.1 = k
      · simpa [eraseKey, h] using ih
      · simpa [eraseKey, lookupKey, h] using ih

theorem lookupKey_eraseKey_ne {α : Type} (l : List (String × α)) {k k' : String}
    (h : k' ≠ k) : lookupKey (eraseKey l k) k' = lookupKey l k' := by
  induction l with
  | nil => rfl
  | cons p rest ih =>
      by_cases hp : p.1 = k
      · have he : eraseKey (p :: rest) k = eraseKey rest k := by simp [eraseKey, hp]
        rw [he, ih]
        have hne : ¬p.1 = k' := fun hh => h (hh.symm.trans hp)
        simp [lookupKey, hne]
      · have he : eraseKey (p :: rest) k = p :: eraseKey rest k := by simp [eraseKey, hp]
        rw [he]
        by_cases hk' : p.1 = k'
        · simp [lookupKey, hk']
        · simp [lookupKey, hk', ih]

theorem lookupKey_writeKey_self {α : Type} (l : List (String × α)) (k : String) (v : α) :
    lookupKey (writeKey l k v) k = some v := by
  rw [writeKey, lookupKey_append, lookupKey_eraseKey_self]
  simp [lookupKey]

theorem lookupKey_writeKey_ne {α : Type} (l : List (String × α)) {k k' : String} (v : α)
    (h : k' ≠ k) : lookupKey (writeKey l k v) k' = lookupKey l k' := by
  rw [writeKey, lookupKey_append]
  rw [lookupKey_eraseKey_ne l h]
  cases hl : lookupKey l k' with
  | some v' => rfl
  | none =>
      have hne : ¬k = k' := fun hh => h hh.symm
      simp [lookupKey, hne]

theorem lookupKey_eq_none_iff {α : Type} {l : List (String × α)} {k : String} :
    lookupKey l k = none ↔ k ∉ l.map Prod.fst := by
  induction l with
  | nil => simp [lookupKey]
  | cons p rest ih =>
      by_cases h : p.1 = k
      · simp [lookupKey, h]
      · have hne : ¬k = p.1 := fun hh => h hh.symm
        simp [lookupKey, h, ih, hne]

theorem eraseKey_of_absent {α : Type} {l : List (String × α)} {k : String}
    (h : lookupKey l k = none) : eraseKey l k = l := by
  have hk := lookupKey_eq_none_iff.mp h
  apply List.filter_eq_self.mpr
  intro p hp
  have : p.1 ≠ k := fun hpk => hk (List.mem_map.mpr ⟨p, hp, hpk⟩)
  simpa using this

/-- `LocalStorage.delete_file` always leaves the directory with the name
erased, whether or not it was present. -/
theorem delete_file_fst (s : FS) (n : String) :
    (LocalStorage.delete_file s n).1 = eraseKey s n := by
  by_cases h : LocalStorage.file_exists s n
  · simp [LocalStorage.delete_file, h]
  · have hnone : lookupKey s n = none := by
      rcases hl : lookupKey s n with _ | v
      · rfl
      · exact absurd (by simp [LocalStorage.file_exists, hl]) h
    simp [LocalStorage.delete_file, h, eraseKey_of_absent hnone]

theorem string_append_right_inj {p a b : String} (h : p ++ a = p ++ b) : a = b := by
  have hdd := congrArg String.data h
  simp only [String.data_append] at hdd
  cases a with
  | mk da =>
      cases b with
      | mk db =>
          simp only at hdd
          exact congrArg String.mk (List.append_cancel_left hdd)

theorem mem_insertDesc {a r : FileRecord} {l : List FileRecord} :
    a ∈ insertDesc r l ↔ a = r ∨ a ∈ l := by
  induction l with
  | nil => simp [insertDesc]
  | cons s rest ih =>
      by_cases h : s.created ≤ r.created
      · simp only [insertDesc, if_pos h, List.mem_cons]
      · simp only [insertDesc, if_neg h, List.mem_cons, ih]
        tauto

theorem mem_sortByCreatedDesc {a : FileRecord} {l : List FileRecord} :
    a ∈ sortByCreatedDesc l ↔ a ∈ l := by
  induction l with
  | nil => simp [sortByCreatedDesc]
  | cons r rest ih =>
      simp only [sortByCreatedDesc, mem_insertDesc, List.mem_cons, ih]

theorem pairwise_insertDesc {r : FileRecord} {l : List FileRecord}
    (h : l.Pairwise (fun a b => b.created ≤ a.created)) :
    (insertDesc r l).Pairwise (fun a b => b.created ≤ a.created) := by
  induction l with
  | nil => simp [insertDesc]
  | cons s rest ih =>
      rcases List.pairwise_cons.mp h with ⟨hs, hrest⟩
      by_cases hle : s.created ≤ r.created
      · simp only [insertDesc, if_pos hle]
        refine List.pairwise_cons.mpr ⟨?_, List.pairwise_cons.mpr ⟨hs, hrest⟩⟩
        intro b hb
        rcases List.mem_cons.mp hb with rfl | hb'
        · exact hle
        · exact le_trans (hs b hb') hle
      · simp only [insertDesc, if_neg hle]
        refine List.pairwise_cons.mpr ⟨?_, ih hrest⟩
        intro b hb
        rcases mem_insertDesc.mp hb with rfl | hb'
        · exact le_of_lt (lt_of_not_le hle)
        · exact hs b hb'

theorem pairwise_sortByCreatedDesc (l : List FileRecord) :
    (sortByCreatedDesc l).Pairwise (fun a b => b.created ≤ a.created) := by
  induction l with
  | nil => simp [sortByCreatedDesc]
  | cons r rest ih => exact pairwise_insertDesc ih

/-! ## Claims -/

/-- C1: for every (name, bytes) pair, a successful `save_file` of `bytes`
under `name` followed by `get_file name` returns exactly `bytes` — full
content, never partial — on either backend. -/
theorem save_then_get_roundtrip (st : Backend) (name : String) (bytes : Bytes) (now : Int)
    (h : (Backend.save_file st name bytes now).2 = true) :
    Backend.get_file (Backend.save_file st name bytes now).1 name = some bytes := by
  cases st with
  | localDisk fs =>
      simp [Backend.save_file, Backend.get_file, LocalStorage.save_file,
        LocalStorage.get_file, lookupKey_writeKey_self]
  | objectStore cfg b =>
      by_cases hi : cfg.initialized
      · simp [Backend.save_file, Backend.get_file, S3Storage.save_file,
          S3Storage.get_file, hi, lookupKey_writeKey_self]
      · exact absurd h (by simp [Backend.save_file, S3Storage.save_file, hi])

/-- C1 witness: the round trip at a concrete input. -/
theorem save_then_get_roundtrip_witness :
    (Backend.save_file (Backend.localDisk []) "a.mp3" [1, 2, 3] 10).2 = true ∧
    Backend.get_file (Backend.save_file (Backend.localDisk []) "a.mp3" [1, 2, 3] 10).1 "a.mp3"
      = some [1, 2, 3] :=
  ⟨by decide, save_then_get_roundtrip (Backend.localDisk []) "a.mp3" [1, 2, 3] 10 (by decide)⟩

/-- C2 counterexample: on an initialized object-store backend, deleting a
name that does not exist returns `True` (the provider's `delete_object`
is unconditional), not `False` as the claim states. -/
theorem delete_absent_s3_cex :
    ¬((S3Storage.delete_file (S3Storage.init "bucket" "audio/" true) [] "a.mp3").2 = false) := by
  decide

/-- C2 (amended): `delete_file` followed by `file_exists` is false on
either backend, and deleting an already-absent name returns `False` on
the local backend but `True` on an initialized object-store backend
(`False` there only when uninitialized); no case raises. -/
theorem delete_then_absent (st : Backend) (fs : FS) (cfg : S3Cfg) (b : Bucket) (name : String) :
    Backend.file_exists (Backend.delete_file st name).1 name = false
  ∧ (LocalStorage.file_exists fs name = false → (LocalStorage.delete_file fs name).2 = false)
  ∧ (cfg.initialized = true → S3Storage.file_exists cfg b name = false →
       (S3Storage.delete_file cfg b name).2 = true) := by
  refine ⟨?_, ?_, ?_⟩
  · cases st with
    | localDisk fs' =>
        by_cases h : LocalStorage.file_exists fs' name
        · have h' : (lookupKey fs' name).isSome = true := h
          simp [Backend.delete_file, Backend.file_exists, LocalStorage.delete_file, h,
            LocalStorage.file_exists, h', lookupKey_eraseKey_self]
        · simp only [Backend.delete_file, Backend.file_exists, LocalStorage.delete_file,
            if_neg h]
          exact Bool.not_eq_true _ ▸ (by simpa using h)
    | objectStore cfg' b' =>
        by_cases hi : cfg'.initialized
        · simp [Backend.delete_file, Backend.file_exists, S3Storage.delete_file,
            S3Storage.file_exists, hi, lookupKey_eraseKey_self]
        · simp [Backend.delete_file, Backend.file_exists, S3Storage.delete_file,
            S3Storage.file_exists, hi]
  · intro h
    simp [LocalStorage.delete_file, h]
  · intro hi _
    simp [S3Storage.delete_file, hi]

/-- C2 witness: the amended statement at concrete inputs. -/
theorem delete_then_absent_witness :
    Backend.file_exists
      (Backend.delete_file (Backend.localDisk [("a.mp3", ⟨[1], 0⟩)]) "a.mp3").1 "a.mp3" = false
  ∧ (LocalStorage.delete_file [] "a.mp3").2 = false
  ∧ (S3Storage.delete_file (S3Storage.init "bkt" "audio/" true) [] "a.mp3").2 = true := by
  have h := delete_then_absent (Backend.localDisk [("a.mp3", ⟨[1], 0⟩)]) []
    (S3Storage.init "bkt" "audio/" true) [] "a.mp3"
  exact ⟨h.1, h.2.1 (by decide), h.2.2 (by decide) (by decide)⟩

/-- C5: the code is wrong — `run.py`'s `create_app` does
`from experiments.tts_pirate.routes import tts_bp, start_cleanup_task`,
but the routes module binds no `start_cleanup_task` (the sweeper thread
is started at module import time, lines 75-76), so the bootstrap raises
`ImportError` before reaching its guarded call; the promised idempotent
`start background retention` entry point does not exist. -/
theorem create_app_import_fails :
    ttsRoutesNames.contains "start_cleanup_task" = false ∧
    create_app_tts_import = Except.error "ImportError" := by
  exact ⟨by decide, rfl⟩

/-- C7: if the S3 client failed to initialize at construction (missing
SDK or client-construction fault), construction itself does not raise —
`S3Storage.init` is total and merely records `initialized = false` — and
every subsequent operation returns failure or absence with the remote
bucket left untouched (no network I/O). -/
theorem s3_uninitialized_degrades (cfg : S3Cfg) (b : Bucket) (n m : String) (c : Bytes)
    (ep : Option String) (now age : Int) (bn pr : String)
    (h : cfg.initialized = false) :
    S3Storage.save_file cfg b n c now = (b, false)
  ∧ S3Storage.get_file cfg b n = none
  ∧ S3Storage.delete_file cfg b n = (b, false)
  ∧ S3Storage.rename_file cfg b n m now = (b, false)
  ∧ S3Storage.list_files cfg b ep = []
  ∧ S3Storage.file_exists cfg b n = false
  ∧ S3Storage.get_file_url cfg n = none
  ∧ S3Storage.cleanup_temp_files cfg b now age = b
  ∧ (S3Storage.init bn pr false).initialized = false := by
  refine ⟨?_, ?_, ?_, ?_, ?_, ?_, ?_, ?_, rfl⟩ <;>
    simp [S3Storage.save_file, S3Storage.get_file, S3Storage.delete_file,
      S3Storage.rename_file, S3Storage.list_files, S3Storage.file_exists,
      S3Storage.get_file_url, S3Storage.cleanup_temp_files, h]

/-- C7 witness: the degraded-operation guarantees at a concrete
uninitialized instance. -/
theorem s3_uninitialized_degrades_witness :
    S3Storage.save_file (S3Storage.init "bkt" "audio/" false) [] "a.mp3" [1] 0 = ([], false)
  ∧ S3Storage.get_file (S3Storage.init "bkt" "audio/" false) [] "a.mp3" = none
  ∧ S3Storage.delete_file (S3Storage.init "bkt" "audio/" false) [] "a.mp3" = ([], false)
  ∧ S3Storage.rename_file (S3Storage.init "bkt" "audio/" false) [] "a.mp3" "b.mp3" 0 = ([], false)
  ∧ S3Storage.list_files (S3Storage.init "bkt" "audio/" false) [] none = []
  ∧ S3Storage.file_exists (S3Storage.init "bkt" "audio/" false) [] "a.mp3" = false
  ∧ S3Storage.get_file_url (S3Storage.init "bkt" "audio/" false) "a.mp3" = none
  ∧ S3Storage.cleanup_temp_files (S3Storage.init "bkt" "audio/" false) [] 0 300 = []
  ∧ (S3Storage.init "bkt" "audio/" false).initialized = false :=
  s3_uninitialized_degrades (S3Storage.init "bkt" "audio/" false) [] "a.mp3" "b.mp3" [1]
    none 0 300 "bkt" "audio/" (by decide)

/-- C8: an exception raised anywhere in a sweep cycle is caught by the
loop body's `except Exception` arm: the iteration is total, leaves the
storage state as it was, and the loop proceeds (sleeps and runs the
remaining schedule) — a failing cycle never terminates the sweeper or
escapes to the host process. -/
theorem sweep_fault_is_contained (st : Backend) (maxAge now : Int) (msg : String)
    (rest : List (Int × Option String)) :
    sweepIteration st now maxAge (some msg) = st
  ∧ sweeperRun maxAge st ((now, some msg) :: rest) = sweeperRun maxAge st rest :=
  ⟨rfl, rfl⟩

/-- C3: on either backend, if `old` is present and `new` absent,
`rename_file` succeeds, `old` ceases to resolve and `new` resolves to
the bytes `old` held before; if `old` is absent, `rename_file` returns
`False` and leaves the storage state entirely unchanged. -/
theorem rename_semantics (st : Backend) (o n : String) (now : Int) :
    (Backend.file_exists st o = true → Backend.file_exists st n = false →
        (Backend.rename_file st o n now).2 = true
      ∧ Backend.file_exists (Backend.rename_file st o n now).1 o = false
      ∧ Backend.get_file (Backend.rename_file st o n now).1 n = Backend.get_file st o)
  ∧ (Backend.file_exists st o = false →
        (Backend.rename_file st o n now).2 = false
      ∧ (Backend.rename_file st o n now).1 = st) := by
  constructor
  · intro h1 h2
    cases st with
    | localDisk fs =>
        have h1' : (lookupKey fs o).isSome = true := h1
        rcases Option.isSome_iff_exists.mp h1' with ⟨d, hd⟩
        have hn : lookupKey fs n = none := by
          rcases hl : lookupKey fs n with _ | v
          · rfl
          · exact absurd h2 (by simp [Backend.file_exists, LocalStorage.file_exists, hl])
        have hon : o ≠ n := fun he => by rw [he, hn] at hd; cases hd
        have hr : LocalStorage.rename_file fs o n now
            = (writeKey (eraseKey fs o) n { d with created := now }, true) := by
          simp [LocalStorage.rename_file, hd]
        refine ⟨?_, ?_, ?_⟩
        · simp [Backend.rename_file, hr]
        · simp [Backend.rename_file, hr, Backend.file_exists, LocalStorage.file_exists,
            lookupKey_writeKey_ne _ _ hon, lookupKey_eraseKey_self]
        · simp [Backend.rename_file, hr, Backend.get_file, LocalStorage.get_file,
            lookupKey_writeKey_self, hd]
    | objectStore cfg b =>
        have hi : cfg.initialized = true := by
          by_cases hh : cfg.initialized
          · exact hh
          · exact absurd h1 (by simp [Backend.file_exists, S3Storage.file_exists, hh])
        have h1' : (lookupKey b (S3Storage.get_key cfg o)).isSome = true := by
          simpa [Backend.file_exists, S3Storage.file_exists, hi] using h1
        rcases Option.isSome_iff_exists.mp h1' with ⟨ob, hob⟩
        have hn : lookupKey b (S3Storage.get_key cfg n) = none := by
          rcases hl : lookupKey b (S3Storage.get_key cfg n) with _ | v
          · rfl
          · exact absurd h2 (by simp [Backend.file_exists, S3Storage.file_exists, hi, hl])
        have hkey : S3Storage.get_key cfg o ≠ S3Storage.get_key cfg n := by
          intro he
          rw [he, hn] at hob
          cases hob
        have hr : S3Storage.rename_file cfg b o n now
            = (eraseKey (writeKey b (S3Storage.get_key cfg n) { ob with lastModified := now })
                (S3Storage.get_key cfg o), true) := by
          simp [S3Storage.rename_file, hi, hob, hkey]
        have hkey' : S3Storage.get_key cfg n ≠ S3Storage.get_key cfg o := fun he => hkey he.symm
        refine ⟨?_, ?_, ?_⟩
        · simp [Backend.rename_file, hr]
        · simp [Backend.rename_file, hr, Backend.file_exists, S3Storage.file_exists, hi,
            lookupKey_eraseKey_self]
        · simp [Backend.rename_file, hr, Backend.get_file, S3Storage.get_file, hi,
            lookupKey_eraseKey_ne _ hkey', lookupKey_writeKey_self, hob]
  · intro h
    cases st with
    | localDisk fs =>
        have hn : lookupKey fs o = none := by
          rcases hl : lookupKey fs o with _ | v
          · rfl
          · exact absurd h (by simp [Backend.file_exists, LocalStorage.file_exists, hl])
        constructor <;> simp [Backend.rename_file, LocalStorage.rename_file, hn]
    | objectStore cfg b =>
        by_cases hi : cfg.initialized
        · have hn : lookupKey b (S3Storage.get_key cfg o) = none := by
            rcases hl : lookupKey b (S3Storage.get_key cfg o) with _ | v
            · rfl
            · exact absurd h (by simp [Backend.file_exists, S3Storage.file_exists, hi, hl])
          constructor <;> simp [Backend.rename_file, S3Storage.rename_file, hi, hn]
        · constructor <;> simp [Backend.rename_file, S3Storage.rename_file, hi]

/-- C3 witness: both branches of the rename contract at concrete inputs. -/
theorem rename_semantics_witness :
    ((Backend.rename_file (Backend.localDisk [("a.mp3", ⟨[7], 3⟩)]) "a.mp3" "b.mp3" 9).2 = true
   ∧ Backend.file_exists
       (Backend.rename_file (Backend.localDisk [("a.mp3", ⟨[7], 3⟩)]) "a.mp3" "b.mp3" 9).1
       "a.mp3" = false
   ∧ Backend.get_file
       (Backend.rename_file (Backend.localDisk [("a.mp3", ⟨[7], 3⟩)]) "a.mp3" "b.mp3" 9).1
       "b.mp3" = Backend.get_file (Backend.localDisk [("a.mp3", ⟨[7], 3⟩)]) "a.mp3")
  ∧ ((Backend.rename_file (Backend.localDisk []) "x.mp3" "y.mp3" 0).2 = false
   ∧ (Backend.rename_file (Backend.localDisk []) "x.mp3" "y.mp3" 0).1 = Backend.localDisk []) :=
  ⟨(rename_semantics (Backend.localDisk [("a.mp3", ⟨[7], 3⟩)]) "a.mp3" "b.mp3" 9).1
      (by decide) (by decide),
   (rename_semantics (Backend.localDisk []) "x.mp3" "y.mp3" 0).2 (by decide)⟩

/-- C10: single-name operations touch only the named files — on either
backend, `save_file n` and `delete_file n` leave `get_file m` unchanged
for every `m ≠ n`, and `rename_file o n` leaves `get_file m` unchanged
for every `m` outside `{o, n}`. -/
theorem single_name_frame (st : Backend) (n m o nw : String) (c : Bytes) (now : Int) :
    (m ≠ n → Backend.get_file (Backend.save_file st n c now).1 m = Backend.get_file st m)
  ∧ (m ≠ n → Backend.get_file (Backend.delete_file st n).1 m = Backend.get_file st m)
  ∧ (m ≠ o → m ≠ nw →
       Backend.get_file (Backend.rename_file st o nw now).1 m = Backend.get_file st m) := by
  refine ⟨?_, ?_, ?_⟩
  · intro hmn
    cases st with
    | localDisk fs =>
        simp [Backend.save_file, Backend.get_file, LocalStorage.save_file,
          LocalStorage.get_file, lookupKey_writeKey_ne _ _ hmn]
    | objectStore cfg b =>
        by_cases hi : cfg.initialized
        · have hk : S3Storage.get_key cfg m ≠ S3Storage.get_key cfg n := fun he =>
            hmn (string_append_right_inj (by simpa [S3Storage.get_key] using he))
          simp [Backend.save_file, Backend.get_file, S3Storage.save_file, S3Storage.get_file,
            hi, lookupKey_writeKey_ne _ _ hk]
        · simp [Backend.save_file, Backend.get_file, S3Storage.save_file,
            S3Storage.get_file, hi]
  · intro hmn
    cases st with
    | localDisk fs =>
        simp [Backend.delete_file, Backend.get_file, LocalStorage.get_file, delete_file_fst,
          lookupKey_eraseKey_ne _ hmn]
    | objectStore cfg b =>
        by_cases hi : cfg.initialized
        · have hk : S3Storage.get_key cfg m ≠ S3Storage.get_key cfg n := fun he =>
            hmn (string_append_right_inj (by simpa [S3Storage.get_key] using he))
          simp [Backend.delete_file, Backend.get_file, S3Storage.delete_file,
            S3Storage.get_file, hi, lookupKey_eraseKey_ne _ hk]
        · simp [Backend.delete_file, Backend.get_file, S3Storage.delete_file,
            S3Storage.get_file, hi]
  · intro hmo hmn
    cases st with
    | localDisk fs =>
        rcases hl : lookupKey fs o with _ | d
        · simp [Backend.rename_file, LocalStorage.rename_file, hl]
        · simp [Backend.rename_file, LocalStorage.rename_file, hl, Backend.get_file,
            LocalStorage.get_file, lookupKey_writeKey_ne _ _ hmn, lookupKey_eraseKey_ne _ hmo]
    | objectStore cfg b =>
        by_cases hi : cfg.initialized
        · have hko : S3Storage.get_key cfg m ≠ S3Storage.get_key cfg o := fun he =>
            hmo (string_append_right_inj (by simpa [S3Storage.get_key] using he))
          have hkn : S3Storage.get_key cfg m ≠ S3Storage.get_key cfg nw := fun he =>
            hmn (string_append_right_inj (by simpa [S3Storage.get_key] using he))
          rcases hl : lookupKey b (S3Storage.get_key cfg o) with _ | ob
          · simp [Backend.rename_file, S3Storage.rename_file, hi, hl]
          · by_cases hkk : S3Storage.get_key cfg o = S3Storage.get_key cfg nw
            · have hr : S3Storage.rename_file cfg b o nw now = (b, false) := by
                simp only [S3Storage.rename_file, hi, if_true, hl]
                simp [hkk]
              simp [Backend.rename_file, hr]
            · simp [Backend.rename_file, S3Storage.rename_file, hi, hl, hkk,
                Backend.get_file, S3Storage.get_file, lookupKey_eraseKey_ne _ hko,
                lookupKey_writeKey_ne _ _ hkn]
        · simp [Backend.rename_file, Backend.get_file, S3Storage.rename_file,
            S3Storage.get_file, hi]

theorem mem_list_files_local {fs : FS} {ep : Option String} {r : FileRecord} :
    r ∈ LocalStorage.list_files fs ep ↔
      ∃ p, p ∈ fs ∧ excludedBy ep p.1 = false ∧ audioExt p.1 = true ∧
        r = ⟨p.1, p.2.content.length, p.2.created⟩ := by
  unfold LocalStorage.list_files
  rw [mem_sortByCreatedDesc, List.mem_filterMap]
  constructor
  · rintro ⟨p, hp, hf⟩
    by_cases he : excludedBy ep p.1
    · simp [he] at hf
    · by_cases ha : audioExt p.1
      · refine ⟨p, hp, by simpa using he, ha, ?_⟩
        simp only [he, ha, if_neg, if_pos, Bool.false_eq_true, if_false, if_true] at hf
        have hf' : some (⟨p.1, p.2.content.length, p.2.created⟩ : FileRecord) = some r := by
          simpa [he, ha] using hf
        exact (Option.some.inj hf').symm
      · simp [he, ha] at hf
  · rintro ⟨p, hp, he, ha, rfl⟩
    exact ⟨p, hp, by simp [he, ha]⟩

theorem mem_list_files_s3 {cfg : S3Cfg} {b : Bucket} {ep : Option String} {r : FileRecord}
    (hi : cfg.initialized = true) :
    r ∈ S3Storage.list_files cfg b ep ↔
      ∃ p, p ∈ b ∧ strStartsWith p.1 cfg.pre = true ∧
        excludedBy ep (p.1.replace cfg.pre "") = false ∧
        audioExt (p.1.replace cfg.pre "") = true ∧
        r = ⟨p.1.replace cfg.pre "", p.2.content.length, p.2.lastModified⟩ := by
  unfold S3Storage.list_files
  rw [if_pos hi, mem_sortByCreatedDesc, List.mem_filterMap]
  constructor
  · rintro ⟨p, hp, hf⟩
    by_cases hs : strStartsWith p.1 cfg.pre
    · by_cases he : excludedBy ep (p.1.replace cfg.pre "")
      · simp [hs, he] at hf
      · by_cases ha : audioExt (p.1.replace cfg.pre "")
        · refine ⟨p, hp, hs, by simpa using he, ha, ?_⟩
          have hf' : some (⟨p.1.replace cfg.pre "", p.2.content.length, p.2.lastModified⟩
              : FileRecord) = some r := by
            simpa [hs, he, ha] using hf
          exact (Option.some.inj hf').symm
        · simp [hs, he, ha] at hf
    · simp [hs] at hf
  · rintro ⟨p, hp, hs, he, ha, rfl⟩
    exact ⟨p, hp, by simp [hs, he, ha]⟩

/-- C6 counterexample: with the (falsy) empty string supplied as
`exclude_prefix`, `list_files` excludes nothing, yet every filename
starts with the empty prefix — so the claim that no returned entry
starts with the supplied exclude_prefix fails at the empty prefix. -/
theorem list_files_empty_ep_cex :
    (Backend.list_files (Backend.localDisk [("a.mp3", ⟨[], 0⟩)]) (some "")).any
      (fun r => strStartsWith r.filename "") = true := by
  decide

/-- C6 (amended): every record `list_files` returns carries a recognized
audio extension and is not excluded by the supplied `exclude_prefix`
under the code's truthiness rule (exclusion applies only to a non-empty
prefix); the result is sorted by `created` descending (any record
created strictly later appears earlier); and listing is complete — every
stored entry passing the extension and exclusion checks appears (on the
object store, under its prefix-stripped filename). -/
theorem list_files_spec (st : Backend) (ep : Option String) (r : FileRecord)
    (hr : r ∈ Backend.list_files st ep) :
    audioExt r.filename = true
  ∧ excludedBy ep r.filename = false
  ∧ SortedDesc (Backend.list_files st ep)
  ∧ (∀ fs, st = Backend.localDisk fs → ∀ q ∈ fs, audioExt q.1 = true →
       excludedBy ep q.1 = false →
       (⟨q.1, q.2.content.length, q.2.created⟩ : FileRecord) ∈ Backend.list_files st ep)
  ∧ (∀ cfg b, st = Backend.objectStore cfg b → cfg.initialized = true →
       ∀ q ∈ b, strStartsWith q.1 cfg.pre = true →
       audioExt (q.1.replace cfg.pre "") = true →
       excludedBy ep (q.1.replace cfg.pre "") = false →
       (⟨q.1.replace cfg.pre "", q.2.content.length, q.2.lastModified⟩ : FileRecord)
         ∈ Backend.list_files st ep) := by
  refine ⟨?_, ?_, ?_, ?_, ?_⟩
  · cases st with
    | localDisk fs =>
        rcases mem_list_files_local.mp hr with ⟨p, _, _, ha, rfl⟩
        exact ha
    | objectStore cfg b =>
        by_cases hi : cfg.initialized
        · rcases (mem_list_files_s3 hi).mp hr with ⟨p, _, _, _, ha, rfl⟩
          exact ha
        · exact absurd hr (by simp [Backend.list_files, S3Storage.list_files, hi])
  · cases st with
    | localDisk fs =>
        rcases mem_list_files_local.mp hr with ⟨p, _, he, _, rfl⟩
        exact he
    | objectStore cfg b =>
        by_cases hi : cfg.initialized
        · rcases (mem_list_files_s3 hi).mp hr with ⟨p, _, _, he, _, rfl⟩
          exact he
        · exact absurd hr (by simp [Backend.list_files, S3Storage.list_files, hi])
  · cases st with
    | localDisk fs => exact pairwise_sortByCreatedDesc _
    | objectStore cfg b =>
        show SortedDesc (S3Storage.list_files cfg b ep)
        unfold S3Storage.list_files
        by_cases hi : cfg.initialized
        · rw [if_pos hi]
          exact pairwise_sortByCreatedDesc _
        · rw [if_neg hi]
          exact List.Pairwise.nil
  · rintro fs rfl q hq ha he
    exact mem_list_files_local.mpr ⟨q, hq, he, ha, rfl⟩
  · rintro cfg b rfl hi q hq hs ha he
    exact (mem_list_files_s3 hi).mpr ⟨q, hq, hs, he, ha, rfl⟩

/-- C6 witness: the listing guarantees at a concrete two-file state with
an exclude_prefix of `temp_`. -/
theorem list_files_spec_witness :
    audioExt "b.wav" = true
  ∧ excludedBy (some "temp_") "b.wav" = false
  ∧ SortedDesc (Backend.list_files
      (Backend.localDisk [("temp_x.mp3", ⟨[1], 9⟩), ("b.wav", ⟨[1, 2, 3], 5⟩)]) (some "temp_"))
  ∧ (⟨"b.wav", 3, 5⟩ : FileRecord) ∈ Backend.list_files
      (Backend.localDisk [("temp_x.mp3", ⟨[1], 9⟩), ("b.wav", ⟨[1, 2, 3], 5⟩)])
      (some "temp_") := by
  have h := list_files_spec
    (Backend.localDisk [("temp_x.mp3", ⟨[1], 9⟩), ("b.wav", ⟨[1, 2, 3], 5⟩)]) (some "temp_")
    ⟨"b.wav", 3, 5⟩ (by decide)
  exact ⟨h.1, h.2.1, h.2.2.1,
    h.2.2.2.1 _ rfl ("b.wav", ⟨[1, 2, 3], 5⟩) (by decide) (by decide) (by decide)⟩

theorem beq_comm_decide (a b : String) : decide (a ≠ b) = !(b == a) := by
  by_cases h : a = b
  · subst h
    simp
  · have h' : ¬b = a := fun hh => h hh.symm
    simp [h, h']

theorem foldl_step_localDisk (now maxAge : Int) (rs : List FileRecord) (fs : FS) :
    rs.foldl
      (fun s r =>
        if now - r.created > maxAge then (Backend.delete_file s r.filename).1 else s)
      (Backend.localDisk fs)
      = Backend.localDisk (rs.foldl (localLongStep now maxAge) fs) := by
  induction rs generalizing fs with
  | nil => rfl
  | cons r rest ih =>
      simp only [List.foldl_cons]
      have hstep :
          (if now - r.created > maxAge then
            (Backend.delete_file (Backend.localDisk fs) r.filename).1
           else Backend.localDisk fs)
            = Backend.localDisk (localLongStep now maxAge fs r) := by
        by_cases h : now - r.created > maxAge
        · simp [h, Backend.delete_file, localLongStep, delete_file_fst]
        · simp [h, localLongStep]
      rw [hstep, ih]

theorem foldl_localLongStep_eq_filter (now maxAge : Int) (rs : List FileRecord) (fs : FS) :
    rs.foldl (localLongStep now maxAge) fs
      = fs.filter (fun p => !killedBy now maxAge rs p.1) := by
  induction rs generalizing fs with
  | nil => simp [killedBy]
  | cons r rest ih =>
      simp only [List.foldl_cons]
      rw [ih]
      by_cases h : now - r.created > maxAge
      · have hstep : localLongStep now maxAge fs r
            = fs.filter (fun p => decide (p.1 ≠ r.filename)) := by
          simp [localLongStep, h, eraseKey]
        rw [hstep, List.filter_filter]
        apply List.filter_congr
        intro p _
        simp only [killedBy, List.any_cons, Bool.not_or, Bool.true_and, decide_eq_true h]
        rw [Bool.and_comm, beq_comm_decide]
      · have hstep : localLongStep now maxAge fs r = fs := by simp [localLongStep, h]
        rw [hstep]
        apply List.filter_congr
        intro p _
        simp [killedBy, h]

theorem killedBy_list_char {fs : FS} (hwf : (fs.map Prod.fst).Nodup) (now maxAge : Int)
    {p : String × FileData} (hp : p ∈ fs) :
    killedBy now maxAge (LocalStorage.list_files fs none) p.1
      = (audioExt p.1 && decide (now - p.2.created > maxAge)) := by
  rw [Bool.eq_iff_iff]
  constructor
  · intro h
    rcases List.any_eq_true.mp h with ⟨r, hr, hcond⟩
    rcases mem_list_files_local.mp hr with ⟨q, hq, _, ha, rfl⟩
    rw [Bool.and_eq_true] at hcond
    have hqp : q.1 = p.1 := by simpa using hcond.2
    have heq : q = p := List.inj_on_of_nodup_map hwf hq hp hqp
    subst heq
    rw [Bool.and_eq_true]
    exact ⟨ha, by simpa using hcond.1⟩
  · intro h
    rw [Bool.and_eq_true] at h
    apply List.any_eq_true.mpr
    refine ⟨⟨p.1, p.2.content.length, p.2.created⟩, ?_, ?_⟩
    · exact mem_list_files_local.mpr ⟨p, hp, rfl, h.1, rfl⟩
    · simp [h.2]

/-- The long-retention phase on the local backend is exactly a filter:
it removes precisely the listed (audio-extension) entries older than the
window and keeps every other entry untouched. -/
theorem sweepLong_local_char (fs : FS) (now maxAge : Int)
    (hwf : (fs.map Prod.fst).Nodup) :
    sweepLongPhase (Backend.localDisk fs) now maxAge
      = Backend.localDisk (fs.filter (fun p =>
          !(audioExt p.1 && decide (now - p.2.created > maxAge)))) := by
  have h1 : sweepLongPhase (Backend.localDisk fs) now maxAge
      = Backend.localDisk
          ((LocalStorage.list_files fs none).foldl (localLongStep now maxAge) fs) :=
    foldl_step_localDisk now maxAge (LocalStorage.list_files fs none) fs
  rw [h1, foldl_localLongStep_eq_filter]
  congr 1
  apply List.filter_congr
  intro p hp
  rw [killedBy_list_char hwf now maxAge hp]

/-- C4: one long-retention sweep phase lists with no `exclude_prefix`
and deletes exactly the listed files whose age `now - created` exceeds
the retention window (default 3600 s): the surviving directory is the
filter keeping everything else.  `temp_`-prefixed files are not exempt —
the predicate never mentions the prefix, and an over-age temp file is
gone after the phase. -/
theorem long_sweep_deletes_exactly (fs : FS) (now maxAge : Int)
    (hwf : (fs.map Prod.fst).Nodup) :
    sweepLongPhase (Backend.localDisk fs) now maxAge
      = Backend.localDisk (fs.filter (fun p =>
          !(audioExt p.1 && decide (now - p.2.created > maxAge))))
  ∧ (∀ p ∈ fs, strStartsWith p.1 "temp_" = true → audioExt p.1 = true →
       now - p.2.created > maxAge →
       Backend.get_file (sweepLongPhase (Backend.localDisk fs) now maxAge) p.1 = none) := by
  have hchar := sweepLong_local_char fs now maxAge hwf
  refine ⟨hchar, ?_⟩
  intro p hp _ ha hage
  rw [hchar]
  show (lookupKey (fs.filter _) p.1).map FileData.content = none
  have hq : lookupKey
      (fs.filter (fun q => !(audioExt q.1 && decide (now - q.2.created > maxAge)))) p.1
      = none := by
    apply lookupKey_eq_none_iff.mpr
    intro hmem
    rcases List.mem_map.mp hmem with ⟨q, hqf, hq1⟩
    have hqmem := (List.mem_filter.mp hqf).1
    have hpass := (List.mem_filter.mp hqf).2
    have heq : q = p := List.inj_on_of_nodup_map hwf hqmem hp hq1
    subst heq
    rw [ha] at hpass
    simp [hage] at hpass
  rw [hq]
  rfl

/-- C4 witness: a directory holding an over-age persisted file, an
over-age temp file and a fresh file; the phase deletes exactly the two
old ones, the temp file included. -/
theorem long_sweep_deletes_exactly_witness :
    sweepLongPhase
      (Backend.localDisk
        [("speech_old.mp3", ⟨[1], 0⟩), ("temp_old.mp3", ⟨[2], 10⟩), ("new.mp3", ⟨[3], 4000⟩)])
      5000 3600
      = Backend.localDisk [("new.mp3", ⟨[3], 4000⟩)]
  ∧ Backend.get_file
      (sweepLongPhase
        (Backend.localDisk
          [("speech_old.mp3", ⟨[1], 0⟩), ("temp_old.mp3", ⟨[2], 10⟩), ("new.mp3", ⟨[3], 4000⟩)])
        5000 3600)
      "temp_old.mp3" = none := by
  have h := long_sweep_deletes_exactly
    [("speech_old.mp3", ⟨[1], 0⟩), ("temp_old.mp3", ⟨[2], 10⟩), ("new.mp3", ⟨[3], 4000⟩)]
    5000 3600 (by decide)
  constructor
  · rw [h.1]
    exact congrArg Backend.localDisk (by decide)
  · exact h.2 ("temp_old.mp3", ⟨[2], 10⟩) (by decide) (by decide) (by decide) (by decide)

/-- C9: running the long-retention phase twice in immediate succession
with no intervening writes is total (no error) and the second pass
changes nothing — every file deleted by the first pass is absent from
the second listing, and every survivor survives again. -/
theorem long_sweep_idempotent (fs : FS) (now maxAge : Int)
    (hwf : (fs.map Prod.fst).Nodup) :
    sweepLongPhase (sweepLongPhase (Backend.localDisk fs) now maxAge) now maxAge
      = sweepLongPhase (Backend.localDisk fs) now maxAge := by
  have hchar := sweepLong_local_char fs now maxAge hwf
  have hwf2 : ((fs.filter
      (fun p => !(audioExt p.1 && decide (now - p.2.created > maxAge)))).map Prod.fst).Nodup :=
    List.Nodup.sublist (List.Sublist.map Prod.fst (List.filter_sublist fs)) hwf
  rw [hchar, sweepLong_local_char _ now maxAge hwf2]
  congr 1
  rw [List.filter_filter]
  exact List.filter_congr (fun a _ => Bool.and_self _)

/-- C9 witness: idempotence at a concrete directory. -/
theorem long_sweep_idempotent_witness :
    sweepLongPhase
      (sweepLongPhase
        (Backend.localDisk [("a.mp3", ⟨[1], 0⟩), ("b.mp3", ⟨[2], 4000⟩)]) 5000 3600)
      5000 3600
      = sweepLongPhase
          (Backend.localDisk [("a.mp3", ⟨[1], 0⟩), ("b.mp3", ⟨[2], 4000⟩)]) 5000 3600 :=
  long_sweep_idempotent [("a.mp3", ⟨[1], 0⟩), ("b.mp3", ⟨[2], 4000⟩)] 5000 3600 (by decide)

/-- C10 witness: the three frame guarantees at concrete distinct names. -/
theorem single_name_frame_witness :
    (Backend.get_file
       (Backend.save_file (Backend.localDisk [("keep.mp3", ⟨[9], 1⟩)]) "new.mp3" [2] 5).1
       "keep.mp3"
     = Backend.get_file (Backend.localDisk [("keep.mp3", ⟨[9], 1⟩)]) "keep.mp3")
  ∧ (Backend.get_file
       (Backend.delete_file (Backend.localDisk [("keep.mp3", ⟨[9], 1⟩)]) "new.mp3").1
       "keep.mp3"
     = Backend.get_file (Backend.localDisk [("keep.mp3", ⟨[9], 1⟩)]) "keep.mp3")
  ∧ (Backend.get_file
       (Backend.rename_file (Backend.localDisk [("keep.mp3", ⟨[9], 1⟩)]) "old.mp3" "new.mp3" 5).1
       "keep.mp3"
     = Backend.get_file (Backend.localDisk [("keep.mp3", ⟨[9], 1⟩)]) "keep.mp3") := by
  have h := single_name_frame (Backend.localDisk [("keep.mp3", ⟨[9], 1⟩)])
    "new.mp3" "keep.mp3" "old.mp3" "new.mp3" [2] 5
  exact ⟨h.1 (by decide), h.2.1 (by decide), h.2.2 (by decide) (by decide)⟩

end PirateLab
